import Mathlib

/-!
Verification of the Guam bill/resolution scraper (`scrapers/gu/bills.py`).

The program's string processing is embedded shallowly over `List Char`:
Python `str.split`, `str.strip`, `str.removeprefix`, regular-expression
`findall`/`search` for the concrete patterns of the scraper, list/dict
indexing (raising `IndexError`/`KeyError`, modeled with `Except String`),
and the record-assembly steps of `_process_bill` / `_process_resolution`.
External collaborators (network fetch, pdf conversion, `dateutil` parsing,
timezone localization) are out of scope per the specification; a parsed
and localized date is modeled abstractly by the exact matched source text.
-/

namespace GuBills

/-- Python whitespace characters recognized by `str.strip()` / `str.split()`
(ASCII range, which covers the scraped pages). -/
def pySpace (c : Char) : Bool :=
  c = ' ' || c = '\t' || c = '\n' || c = '\r' || c = '\x0b' || c = '\x0c'

/-- Python `s.strip(chars)` / `s.strip()`: drop characters satisfying `p`
from both ends of the string. -/
def pyStrip (p : Char → Bool) (s : List Char) : List Char :=
  ((s.dropWhile p).reverse.dropWhile p).reverse

/-- Python `str.removeprefix`. -/
def removePrefix (pre s : List Char) : List Char :=
  if pre.isPrefixOf s then s.drop pre.length else s

/-- Split at the first occurrence of `pat`: `some (a, b)` with `s = a ++ pat ++ b`
and no occurrence of `pat` starting inside `a`; `none` when `pat` does not occur. -/
def splitFirst (pat : List Char) : List Char → Option (List Char × List Char)
  | [] => if pat = [] then some ([], []) else none
  | c :: rest =>
    if pat.isPrefixOf (c :: rest) then some ([], (c :: rest).drop pat.length)
    else
      match splitFirst pat rest with
      | none => none
      | some (a, b) => some (c :: a, b)

theorem splitFirst_structure {pat : List Char} : ∀ {s a b : List Char},
    splitFirst pat s = some (a, b) → s = a ++ pat ++ b := by
  intro s
  induction s with
  | nil =>
    intro a b h
    by_cases hp : pat = []
    · subst hp
      simp [splitFirst] at h
      obtain ⟨h1, h2⟩ := h
      simp_all
    · simp [splitFirst, hp] at h
  | cons c rest ih =>
    intro a b h
    by_cases hpre : pat.isPrefixOf (c :: rest)
    · simp [splitFirst, hpre] at h
      obtain ⟨t, ht⟩ := List.isPrefixOf_iff_prefix.mp hpre
      obtain ⟨h1, h2⟩ := h
      subst h1
      rw [← ht, List.drop_left] at h2
      subst h2
      rw [← ht]
      simp
    · simp only [splitFirst, if_neg hpre] at h
      cases hrest : splitFirst pat rest with
      | none => rw [hrest] at h; exact absurd h (by simp)
      | some ab =>
        obtain ⟨a', b'⟩ := ab
        rw [hrest] at h
        simp at h
        have := ih hrest
        rw [← h.1, ← h.2, this]
        simp

/-- A prefix of `s ++ t` no longer than `s` is a prefix of `s`. -/
theorem isPrefixOf_append_left {pat s t : List Char}
    (h : pat.isPrefixOf (s ++ t) = true) (hl : pat.length ≤ s.length) :
    pat.isPrefixOf s = true := by
  rw [List.isPrefixOf_iff_prefix] at h ⊢
  have h1 : pat = (s ++ t).take pat.length := List.prefix_iff_eq_take.mp h
  rw [List.take_append_eq_append_take, Nat.sub_eq_zero_of_le hl, List.take_zero,
    List.append_nil] at h1
  rw [h1]
  exact List.take_prefix _ _

/-- First-occurrence splits are stable under appending on the right. -/
theorem splitFirst_append {pat : List Char} : ∀ {s t a b : List Char},
    splitFirst pat s = some (a, b) → splitFirst pat (s ++ t) = some (a, b ++ t) := by
  intro s
  induction s with
  | nil =>
    intro t a b h
    by_cases hp : pat = []
    · subst hp
      simp [splitFirst] at h
      obtain ⟨h1, h2⟩ := h
      subst h1
      subst h2
      cases t with
      | nil => simp [splitFirst]
      | cons c rest => simp [splitFirst, List.isPrefixOf]
    · simp [splitFirst, hp] at h
  | cons c rest ih =>
    intro t a b h
    by_cases hpre : pat.isPrefixOf (c :: rest)
    · simp [splitFirst, hpre] at h
      obtain ⟨h1, h2⟩ := h
      subst h1
      subst h2
      have hpre2 : pat.isPrefixOf ((c :: rest) ++ t) = true := by
        rw [List.isPrefixOf_iff_prefix] at hpre ⊢
        exact hpre.trans (List.prefix_append _ _)
      have hlen : pat.length ≤ (c :: rest).length :=
        (List.isPrefixOf_iff_prefix.mp hpre).length_le
      have hdrop : ((c :: rest) ++ t).drop pat.length =
          (c :: rest).drop pat.length ++ t := by
        rw [List.drop_append_eq_append_drop, Nat.sub_eq_zero_of_le hlen, List.drop_zero]
      rw [List.cons_append]
      rw [List.cons_append] at hpre2 hdrop
      simp only [splitFirst, if_pos hpre2]
      rw [hdrop]
    · simp only [splitFirst, if_neg hpre] at h
      cases hrest : splitFirst pat rest with
      | none => rw [hrest] at h; exact absurd h (by simp)
      | some ab =>
        obtain ⟨a', b'⟩ := ab
        rw [hrest] at h
        simp at h
        obtain ⟨h1, h2⟩ := h
        subst h1
        subst h2
        have hstruct := splitFirst_structure hrest
        have hlen : pat.length ≤ (c :: rest).length := by
          rw [hstruct]
          simp
          omega
        have hpre2 : ¬ pat.isPrefixOf ((c :: rest) ++ t) = true := by
          intro hcontra
          exact hpre (isPrefixOf_append_left hcontra hlen)
        rw [List.cons_append]
        rw [List.cons_append] at hpre2
        simp only [splitFirst, if_neg hpre2]
        rw [ih hrest]

theorem isPrefixOf_nil_left (s : List Char) : List.isPrefixOf ([] : List Char) s = true := by
  cases s <;> simp [List.isPrefixOf]

/-- A pattern not containing `x` that is a prefix of `A ++ x :: B` is a prefix of `A`
(the occurrence cannot reach across the `x`). -/
theorem isPrefixOf_append_cons {pat : List Char} {x : Char} (hx : x ∉ pat) :
    ∀ {A B : List Char}, pat.isPrefixOf (A ++ x :: B) = true → pat.isPrefixOf A = true := by
  induction pat with
  | nil => intro A B _; exact isPrefixOf_nil_left A
  | cons p ptl ih =>
    intro A B h
    cases A with
    | nil =>
      simp only [List.nil_append, List.isPrefixOf, Bool.and_eq_true, beq_iff_eq] at h
      exact absurd (by simp [h.1]) hx
    | cons a A' =>
      simp only [List.cons_append, List.isPrefixOf, Bool.and_eq_true, beq_iff_eq] at h ⊢
      refine ⟨h.1, ih (fun hmem => hx (List.mem_cons_of_mem _ hmem)) h.2⟩

/-- No occurrence of `pat` in `A` or `B`, and `pat` avoids the separator
character `x`: then `pat` does not occur in `A ++ x :: B` at all. -/
theorem splitFirst_none_append {pat : List Char} {x : Char} (hx : x ∉ pat) :
    ∀ {A B : List Char}, splitFirst pat A = none → splitFirst pat B = none →
      splitFirst pat (A ++ x :: B) = none := by
  intro A
  induction A with
  | nil =>
    intro B hA hB
    have hpre : ¬ pat.isPrefixOf (x :: B) = true := by
      intro hcontra
      cases pat with
      | nil => cases B <;> simp [splitFirst, List.isPrefixOf] at hB
      | cons p ptl =>
        simp only [List.isPrefixOf, Bool.and_eq_true, beq_iff_eq] at hcontra
        exact hx (by simp [hcontra.1])
    simp only [List.nil_append, splitFirst, if_neg hpre, hB]
  | cons c A' ih =>
    intro B hA hB
    have hpreA : ¬ pat.isPrefixOf (c :: A') = true := by
      intro hcontra
      simp [splitFirst, hcontra] at hA
    have hA' : splitFirst pat A' = none := by
      simp only [splitFirst, if_neg hpreA] at hA
      cases hh : splitFirst pat A' with
      | none => rfl
      | some ab => obtain ⟨x1, x2⟩ := ab; rw [hh] at hA; simp at hA
    have hpre2 : ¬ pat.isPrefixOf (c :: (A' ++ x :: B)) = true := by
      intro hcontra
      exact hpreA (isPrefixOf_append_cons hx (by rw [← List.cons_append] at hcontra; exact hcontra))
    rw [List.cons_append]
    simp only [splitFirst, if_neg hpre2, ih hA' hB]

/-- The HTML comment terminator `-->` on which `scrape` splits the index page. -/
def commentEnd : List Char := ['-', '-', '>']

/-- If `-->` does not occur in `A`, the first occurrence of `-->` in
`A ++ "-->" ++ t` is exactly the explicit one (`-->` cannot straddle the
boundary since no proper suffix of `A ++ "--"` can complete it). -/
theorem splitFirst_commentEnd_append : ∀ {A t : List Char},
    splitFirst commentEnd A = none →
    splitFirst commentEnd (A ++ (commentEnd ++ t)) = some (A, t) := by
  intro A
  induction A with
  | nil =>
    intro t _
    have hpre : commentEnd.isPrefixOf (commentEnd ++ t) = true := by
      rw [List.isPrefixOf_iff_prefix]
      exact List.prefix_append _ _
    rw [List.nil_append]
    show splitFirst commentEnd ('-' :: '-' :: '>' :: t) = some ([], t)
    simp only [splitFirst]
    rw [if_pos (by exact hpre)]
    simp [commentEnd]
  | cons c A' ih =>
    intro t hA
    have hpreA : ¬ commentEnd.isPrefixOf (c :: A') = true := by
      intro hcontra
      simp [splitFirst, hcontra] at hA
    have hA' : splitFirst commentEnd A' = none := by
      simp only [splitFirst, if_neg hpreA] at hA
      cases hh : splitFirst commentEnd A' with
      | none => rfl
      | some ab => obtain ⟨x1, x2⟩ := ab; rw [hh] at hA; simp at hA
    have hpre2 : ¬ commentEnd.isPrefixOf (c :: (A' ++ (commentEnd ++ t))) = true := by
      intro hcontra
      rcases A' with _ | ⟨d1, _ | ⟨d2, A''⟩⟩
      · simp [commentEnd, List.isPrefixOf] at hcontra
      · simp [commentEnd, List.isPrefixOf] at hcontra
      · have hlen : commentEnd.length ≤ (c :: d1 :: d2 :: A'').length := by
          simp [commentEnd]
        rw [← List.cons_append] at hcontra
        exact hpreA (isPrefixOf_append_left hcontra hlen)
    rw [List.cons_append]
    simp only [splitFirst, if_neg hpre2, ih hA']

/-- Fuel-indexed worker for `pySplit`. Each recursive call strictly shrinks
the string (the separator is nonempty at every use site), so any fuel above
the string length is sufficient and never runs out. -/
def pySplitF (pat : List Char) : Nat → List Char → List (List Char)
  | 0, s => [s]
  | fuel + 1, s =>
    if pat = [] then [s]
    else
      match splitFirst pat s with
      | none => [s]
      | some (a, b) => a :: pySplitF pat fuel b

/-- Python `s.split(sep)` for nonempty `sep`: the pieces between consecutive
(leftmost, non-overlapping) occurrences, empty pieces kept. (Python raises
for an empty separator; the scraper splits only on `-->`, `\n` and `-`.) -/
def pySplit (pat : List Char) (s : List Char) : List (List Char) :=
  pySplitF pat (s.length + 1) s

theorem pySplitF_invariant (pat : List Char) :
    ∀ (f1 f2 : Nat) (s : List Char), s.length < f1 → s.length < f2 →
      pySplitF pat f1 s = pySplitF pat f2 s := by
  intro f1
  induction f1 with
  | zero => intro f2 s h1 _; omega
  | succ f1 ih =>
    intro f2 s h1 h2
    cases f2 with
    | zero => omega
    | succ f2 =>
      simp only [pySplitF]
      by_cases hp : pat = []
      · simp [hp]
      · simp only [if_neg hp]
        cases hs : splitFirst pat s with
        | none => rfl
        | some ab =>
          obtain ⟨a, b⟩ := ab
          have hb : b.length < s.length := by
            have hst := splitFirst_structure hs
            have hl : 0 < pat.length := List.length_pos.mpr hp
            rw [hst]
            simp [List.length_append]
            omega
          show a :: pySplitF pat f1 b = a :: pySplitF pat f2 b
          rw [ih f2 b (by omega) (by omega)]

/-- The one-step unfolding of `pySplit`. -/
theorem pySplit_eq (pat : List Char) (s : List Char) :
    pySplit pat s =
      if pat = [] then [s]
      else
        match splitFirst pat s with
        | none => [s]
        | some (a, b) => a :: pySplit pat b := by
  show pySplitF pat (s.length + 1) s = _
  simp only [pySplitF]
  by_cases hp : pat = []
  · simp [hp]
  · simp only [if_neg hp]
    cases hs : splitFirst pat s with
    | none => rfl
    | some ab =>
      obtain ⟨a, b⟩ := ab
      have hb : b.length < s.length := by
        have hst := splitFirst_structure hs
        have hl : 0 < pat.length := List.length_pos.mpr hp
        rw [hst]
        simp [List.length_append]
        omega
      show a :: pySplitF pat s.length b = a :: pySplit pat b
      rw [pySplitF_invariant pat s.length (b.length + 1) b (by omega) (by omega)]
      rfl

/-- Python `s.split()` with no argument: split on whitespace runs, dropping
empty pieces. -/
def pySplitWs (s : List Char) : List (List Char) :=
  (List.splitOnP pySpace s).filter (fun w => !w.isEmpty)

/-- Python `sep.join(pieces)`. -/
def joinWith (sep : List Char) : List (List Char) → List Char
  | [] => []
  | [w] => w
  | w :: rest => w ++ sep ++ joinWith sep rest

/-- Python substring test `needle in hay`. -/
def containsSub (needle hay : List Char) : Bool := (splitFirst needle hay).isSome

/-- Star-free regular expressions: sufficient for the scraper's date patterns,
with the bounded repetitions `{1,2}` / `{2,4}` expanded at construction time. -/
inductive RE where
  | eps : RE
  | chr : (Char → Bool) → RE
  | seq : RE → RE → RE
  | alt : RE → RE → RE

/-- All prefixes of `s` that `r` can match, in Python backtracking priority
order (the head, when present, is the match the `re` engine commits to). -/
def reMatches : RE → List Char → List (List Char)
  | .eps, _ => [[]]
  | .chr _, [] => []
  | .chr p, c :: _ => if p c then [[c]] else []
  | .seq a b, s =>
    (reMatches a s).flatMap (fun ca => (reMatches b (s.drop ca.length)).map (fun cb => ca ++ cb))
  | .alt a b, s => reMatches a s ++ reMatches b s

/-- Fuel-indexed worker for `reFindall`; every step consumes at least one
character, so fuel above the string length never runs out. -/
def reFindallF (r : RE) : Nat → List Char → List (List Char)
  | 0, _ => []
  | fuel + 1, s =>
    match (reMatches r s).head? with
    | some m =>
      match s with
      | [] => [m]
      | c :: rest =>
        if m.length = 0 then m :: reFindallF r fuel rest
        else m :: reFindallF r fuel ((c :: rest).drop m.length)
    | none =>
      match s with
      | [] => []
      | _ :: rest => reFindallF r fuel rest

/-- `pattern.findall`: scan left to right, emitting the backtracking match at
each position and resuming after it; positions with no match advance by one. -/
def reFindall (r : RE) (s : List Char) : List (List Char) :=
  reFindallF r (s.length + 1) s

def reLit (c : Char) : RE := .chr (fun x => x = c)

def reOpt (r : RE) : RE := .alt r .eps

def reDigit : RE := .chr (fun c => c.isDigit)

/-- Greedy `{1,2}`. -/
def rep12 (r : RE) : RE := .alt (.seq r r) r

/-- Greedy `{2,4}`. -/
def rep24 (r : RE) : RE :=
  .alt (.seq r (.seq r (.seq r r))) (.alt (.seq r (.seq r r)) (.seq r r))

/-- `date_re`: `([0-9]{1,2}/[0-9]{1,2}/[0-9]{2,4})`. -/
def date_re : RE :=
  .seq (rep12 reDigit)
    (.seq (reLit '/') (.seq (rep12 reDigit) (.seq (reLit '/') (rep24 reDigit))))

/-- `date_time_re`: the date pattern, then `\s?\n?`, a 12-hour clock time
`[0-9]{1,2}:[0-9]{2}`, a space, and `[apAP]\.?[mM]\.?`. -/
def date_time_re : RE :=
  .seq date_re (.seq (reOpt (.chr pySpace)) (.seq (reOpt (reLit '\n'))
    (.seq (rep12 reDigit) (.seq (reLit ':') (.seq reDigit (.seq reDigit
    (.seq (reLit ' ') (.seq (.chr (fun c => c = 'a' || c = 'p' || c = 'A' || c = 'P'))
    (.seq (reOpt (reLit '.')) (.seq (.chr (fun c => c = 'm' || c = 'M'))
      (reOpt (reLit '.'))))))))))))

/-- Character class `[a-zA-Z, \n]` of `committee_re`. -/
def committeeClassChar (c : Char) : Bool :=
  ('a' ≤ c && c ≤ 'z') || ('A' ≤ c && c ≤ 'Z') || c = ',' || c = ' ' || c = '\n'

/-- `committee_re.search(...)`: first match of `([cC]ommittee on [a-zA-Z, \n]+)`.
The trailing `+` is a greedy maximal run since nothing follows it in the
pattern; a position where the run would be empty does not match and the scan
moves on. -/
def committee_re_search : List Char → Option (List Char)
  | [] => none
  | c :: rest =>
    if (c = 'c' || c = 'C') && "ommittee on ".data.isPrefixOf rest
        && !((rest.drop 12).takeWhile committeeClassChar).isEmpty then
      some (c :: ("ommittee on ".data ++ (rest.drop 12).takeWhile committeeClassChar))
    else committee_re_search rest

/-- Python list indexing `l[i]` for `i ≥ 0`: `IndexError` when out of range. -/
def pyIndex {α : Type} (l : List α) (i : Nat) : Except String α :=
  if h : i < l.length then .ok (l.get ⟨i, h⟩)
  else .error "IndexError: list index out of range"

/-- Python negative list indexing `l[-k]` (for `k ≥ 1`). -/
def pyIndexNeg {α : Type} (l : List α) (k : Nat) : Except String α :=
  if h : 0 < k ∧ k ≤ l.length then .ok (l.get ⟨l.length - k, by omega⟩)
  else .error "IndexError: list index out of range"

/-- A date produced by `dateutil.parser.parse` and localized with
`self._tz.localize` (`pytz.timezone("Pacific/Guam")`). Both are external
collaborators; the value is modeled abstractly by the exact matched text. -/
structure TzDateTime where
  raw : List Char
deriving DecidableEq, Repr

/-- The mapping built by `_get_bill_details`
(`{"IntroducedDate": ..., "ReferredDate": ..., "Committee": ...}`). -/
structure BillDetails where
  IntroducedDate : Option TzDateTime
  ReferredDate : Option TzDateTime
  Committee : Option (List Char)
deriving DecidableEq, Repr

/-- The mapping built by `_get_resolution_details`
(`{"IntroducedDate": ..., "PresentationDate": ..., "AdoptedDate": ...}`). -/
structure ResolutionDetails where
  IntroducedDate : Option TzDateTime
  PresentationDate : Option TzDateTime
  AdoptedDate : Option TzDateTime
deriving DecidableEq, Repr

/-- `" ".join(committee.group(1).replace("\n", " ").split())`. -/
def normalizeCommittee (g : List Char) : List Char :=
  joinWith [' '] (pySplitWs (g.map (fun c => if c = '\n' then ' ' else c)))

/-- `_get_bill_details` after PDF download and text normalization: the field
extraction over the joined text (`full_dates[1]` is guarded only by
`if full_dates:`, so a single date-time match raises `IndexError`). -/
def get_bill_details (text_only : List Char) : Except String BillDetails := do
  let full_dates := reFindall date_time_re text_only
  let days := reFindall date_re text_only
  let introducedDate ←
    if full_dates.isEmpty then pure none
    else do
      let s ← pyIndex full_dates 1
      pure (some (TzDateTime.mk s))
  let referredDate ←
    if 2 < days.length then do
      let s ← pyIndex days 2
      pure (some (TzDateTime.mk s))
    else pure none
  let committee := (committee_re_search text_only).map normalizeCommittee
  pure { IntroducedDate := introducedDate, ReferredDate := referredDate,
         Committee := committee }

/-- `_get_resolution_details` after PDF download and text normalization:
`full_dates[1]` under `if full_dates:`, `full_dates[2]` under
`len(full_dates) > 1`, `full_dates[3]` under `len(full_dates) > 2`. -/
def get_resolution_details (text_only : List Char) : Except String ResolutionDetails := do
  let full_dates := reFindall date_time_re text_only
  if full_dates.isEmpty then
    pure { IntroducedDate := none, PresentationDate := none, AdoptedDate := none }
  else do
    let s1 ← pyIndex full_dates 1
    let pres ←
      if 1 < full_dates.length then do
        let s2 ← pyIndex full_dates 2
        pure (some (TzDateTime.mk s2))
      else pure none
    let adop ←
      if 2 < full_dates.length then do
        let s3 ← pyIndex full_dates 3
        pure (some (TzDateTime.mk s3))
      else pure none
    pure { IntroducedDate := some (TzDateTime.mk s1), PresentationDate := pres,
           AdoptedDate := adop }

/-- The resolution details value seen as the Python dict literal of
`_get_resolution_details`, with its exact keys. -/
def resolutionDetailsDict (d : ResolutionDetails) : List (String × Option TzDateTime) :=
  [("IntroducedDate", d.IntroducedDate), ("PresentationDate", d.PresentationDate),
   ("AdoptedDate", d.AdoptedDate)]

/-- Python `dict[key]`: `KeyError` when the key is absent. -/
def dictGet (d : List (String × Option TzDateTime)) (k : String) :
    Except String (Option TzDateTime) :=
  match d.lookup k with
  | some v => .ok v
  | none => .error ("KeyError: " ++ k)

/-- The date argument of an `add_action` call: either a parsed+localized
date value (possibly `None`) or the literal result-date text of the
resolution sponsor tail. -/
inductive ActionDate where
  | stamped : Option TzDateTime → ActionDate
  | literal : List Char → ActionDate
deriving DecidableEq

/-- One `add_action` call on the record. -/
structure GuAction where
  label : List Char
  date : ActionDate
  organization : Option (List Char)
deriving DecidableEq

/-- One `add_sponsorship` call on the record. -/
structure GuSponsorship where
  name : List Char
  entity_type : List Char
  classification : List Char
  primary : Bool
deriving DecidableEq

/-- Lines 226–233 of `_process_resolution`: the conditional detail-action
emission. The source reads `details["ReferredDate"]` for both the
"Presented" and the "Adopted" action, a key the resolution dict never
contains; the Python truthiness guards (`if details[...]:`) are modeled by
`Option.isSome` since a localized date is never falsy. -/
def resolutionEmitDetailActions (details : List (String × Option TzDateTime)) :
    Except String (List GuAction) := do
  let intro ← dictGet details "IntroducedDate"
  let introActs : List GuAction :=
    match intro with
    | some d => [{ label := "Introduced".data, date := .stamped (some d), organization := none }]
    | none => []
  let pres ← dictGet details "PresentationDate"
  let presActs ←
    match pres with
    | some _ => do
        let rd ← dictGet details "ReferredDate"
        pure [{ label := "Presented".data, date := .stamped rd, organization := none }]
    | none => pure ([] : List GuAction)
  let adop ← dictGet details "AdoptedDate"
  let adopActs ←
    match adop with
    | some _ => do
        let rd ← dictGet details "ReferredDate"
        pure [{ label := "Adopted".data, date := .stamped rd, organization := none }]
    | none => pure ([] : List GuAction)
  pure (introActs ++ presActs ++ adopActs)

/-- Lines 161–176 of `_process_bill`: the conditional detail-action emission
of the bill pathway ("Introduced", then "Referred To Committee" with the
committee as organization when one was found). -/
def billEmitDetailActions (details : BillDetails) : List GuAction :=
  (match details.IntroducedDate with
   | some d => [{ label := "Introduced".data, date := .stamped (some d), organization := none }]
   | none => []) ++
  (match details.ReferredDate with
   | some d =>
     [{ label := "Referred To Committee".data, date := .stamped (some d),
        organization := details.Committee }]
   | none => [])

/-- One sponsor-list entry as cleaned in the source: `s.strip("/").strip()`. -/
def cleanSponsorLine (s : List Char) : List Char :=
  pyStrip pySpace (pyStrip (fun c => c = '/') s)

/-- The non-blank raw lines of a sponsor block: the filter
`if s.strip()` of the comprehension, before per-line cleaning. -/
def nonBlankLines (block : List Char) : List (List Char) :=
  (pySplit ['\n'] block).filter (fun s => !(pyStrip pySpace s).isEmpty)

/-- The sponsor list comprehension
`[s.strip("/").strip() for s in block.split("\n") if s.strip()]`. -/
def sponsorLines (block : List Char) : List (List Char) :=
  (nonBlankLines block).map cleanSponsorLine

/-- The primary `add_sponsorship` call:
`add_sponsorship(name=..., entity_type="person", classification="primary", primary=True)`. -/
def mkPrimary (s : List Char) : GuSponsorship :=
  { name := s, entity_type := "person".data, classification := "primary".data,
    primary := true }

/-- The cosponsor `add_sponsorship` call:
`add_sponsorship(name=..., entity_type="person", classification="cosponsor", primary=False)`. -/
def mkCosponsor (s : List Char) : GuSponsorship :=
  { name := s, entity_type := "person".data, classification := "cosponsor".data,
    primary := false }

/-- The `add_sponsorship` calls shared by both parsers: `sponsors[0]` becomes
the primary sponsor (raising `IndexError` on an empty list), every later
entry a cosponsor. -/
def addSponsorships (sponsors : List (List Char)) : Except String (List GuSponsorship) :=
  match sponsors with
  | [] => .error "IndexError: list index out of range"
  | s0 :: rest => .ok (mkPrimary s0 :: rest.map mkCosponsor)

/-- Result-tail handling, lines 203–210 of `_process_resolution`: when the
last sponsor entry contains `-`, `sponsors[-1].split("-")` must unpack into
exactly two pieces and the second piece's `split()` into exactly two tokens,
else a `ValueError` is raised; on success the last entry is replaced by the
text before the dash and the literal result label/date pair is returned
(both tokens are nonempty, so the `if result and result_date:` guard of the
source always fires when the pair is present). -/
def resultTail (sponsors : List (List Char)) :
    Except String (List (List Char) × Option (List Char × List Char)) :=
  match sponsors.getLast? with
  | none => .error "IndexError: list index out of range"
  | some last =>
    if last.contains '-' then
      match pySplit ['-'] last with
      | [nm, result_data] =>
        match pySplitWs result_data with
        | [result, result_date] =>
          .ok (sponsors.dropLast ++ [nm], some (result, result_date))
        | _ => .error "ValueError: unpack"
      | _ => .error "ValueError: unpack"
    else .ok (sponsors, none)

/-- The bill parser's normal-branch sponsor handling, from the captured
sponsor-block text (group 1 of `sponsors_match_re`). -/
def billSponsorships (block : List Char) : Except String (List GuSponsorship) :=
  addSponsorships (sponsorLines block)

/-- The resolution parser's sponsor handling: result tail first (the optional
literal action), then the sponsorship assignment. -/
def resolutionSponsorships (block : List Char) :
    Except String (List GuSponsorship × Option GuAction) := do
  let pair ← resultTail (sponsorLines block)
  let sl ← addSponsorships pair.1
  pure (sl, pair.2.map (fun rd =>
    { label := rd.1, date := .literal rd.2, organization := none }))

/-- Identifier-line parsing of `_process_bill` (lines 96–100):
`text.strip().removeprefix("Bill No. ").split()`. -/
def billNameParts (strongText : List Char) : List (List Char) :=
  pySplitWs (removePrefix "Bill No. ".data (pyStrip pySpace strongText))

/-- `name_parts[0].strip().removeprefix("Bill No. ")`. -/
def billName (strongText : List Char) : Except String (List Char) := do
  let p0 ← pyIndex (billNameParts strongText) 0
  pure (removePrefix "Bill No. ".data (pyStrip pySpace p0))

/-- The withdrawal test `"WITHDRAWN" in "".join(name_parts)`. -/
def billIsWithdrawn (strongText : List Char) : Bool :=
  containsSub "WITHDRAWN".data (billNameParts strongText).flatten

/-- The attribute names bound in `class GUBillScraper` (its class-level
assignments and `def` statements, in source order). The base class
`Scraper` comes from the external `openstates` package. -/
def guBillScraperAttrs : List String :=
  ["_tz", "bill_match_re", "res_match_re", "sponsors_match_re", "desc_match_re",
   "res_desc_match_re", "filtered_details", "date_re", "date_time_re", "committee_re",
   "_download_pdf", "_get_bill_details", "_get_resolution_details", "_process_bill",
   "_process_resolution", "scrape"]

/-- The literal `<p align="left">` opening of `res_match_re`. -/
def resOpenTag : List Char := "<p align=\"left\">".data

/-- The literal `<br>` closing both boundary patterns. -/
def brTag : List Char := "<br>".data

/-- Fuel-indexed worker for `tagFindall`; each emitted match consumes at
least the four characters of `<br>`, so fuel above the string length never
runs out. -/
def tagFindallF (openTag : List Char) : Nat → List Char → List (List Char)
  | 0, _ => []
  | fuel + 1, s =>
    match splitFirst openTag s with
    | none => []
    | some (_, afterOpen) =>
      match splitFirst brTag afterOpen with
      | none => []
      | some (mid, rest) => (openTag ++ mid ++ brTag) :: tagFindallF openTag fuel rest

/-- `findall` for the non-greedy DOTALL boundary patterns
`(<p ...>.*?<br>)`: each match runs from an occurrence of the opening tag to
the next `<br>` after it, the scan resuming past the match. -/
def tagFindall (openTag : List Char) (s : List Char) : List (List Char) :=
  tagFindallF openTag (s.length + 1) s

theorem tagFindallF_invariant (openTag : List Char) :
    ∀ (f1 f2 : Nat) (s : List Char), s.length < f1 → s.length < f2 →
      tagFindallF openTag f1 s = tagFindallF openTag f2 s := by
  intro f1
  induction f1 with
  | zero => intro f2 s h1 _; omega
  | succ f1 ih =>
    intro f2 s h1 h2
    cases f2 with
    | zero => omega
    | succ f2 =>
      simp only [tagFindallF]
      cases h1' : splitFirst openTag s with
      | none => rfl
      | some pab =>
        obtain ⟨pre1, afterOpen⟩ := pab
        show (match splitFirst brTag afterOpen with
              | none => []
              | some (mid, rest) =>
                (openTag ++ mid ++ brTag) :: tagFindallF openTag f1 rest) =
            (match splitFirst brTag afterOpen with
              | none => []
              | some (mid, rest) =>
                (openTag ++ mid ++ brTag) :: tagFindallF openTag f2 rest)
        cases h2' : splitFirst brTag afterOpen with
        | none => rfl
        | some mr =>
          obtain ⟨mid, rest⟩ := mr
          have e1 := splitFirst_structure h1'
          have e2 := splitFirst_structure h2'
          have hrest : rest.length < s.length := by
            rw [e1, e2]
            simp [List.length_append, brTag]
            omega
          show (openTag ++ mid ++ brTag) :: tagFindallF openTag f1 rest =
            (openTag ++ mid ++ brTag) :: tagFindallF openTag f2 rest
          rw [ih f2 rest (by omega) (by omega)]

/-- The one-step unfolding of `tagFindall`. -/
theorem tagFindall_eq (openTag : List Char) (s : List Char) :
    tagFindall openTag s =
      match splitFirst openTag s with
      | none => []
      | some (_, afterOpen) =>
        match splitFirst brTag afterOpen with
        | none => []
        | some (mid, rest) => (openTag ++ mid ++ brTag) :: tagFindall openTag rest := by
  show tagFindallF openTag (s.length + 1) s = _
  simp only [tagFindallF]
  cases h1' : splitFirst openTag s with
  | none => rfl
  | some pab =>
    obtain ⟨pre1, afterOpen⟩ := pab
    show (match splitFirst brTag afterOpen with
          | none => []
          | some (mid, rest) =>
            (openTag ++ mid ++ brTag) :: tagFindallF openTag s.length rest) =
        (match splitFirst brTag afterOpen with
          | none => []
          | some (mid, rest) =>
            (openTag ++ mid ++ brTag) :: tagFindall openTag rest)
    cases h2' : splitFirst brTag afterOpen with
    | none => rfl
    | some mr =>
      obtain ⟨mid, rest⟩ := mr
      have e1 := splitFirst_structure h1'
      have e2 := splitFirst_structure h2'
      have hrest : rest.length < s.length := by
        rw [e1, e2]
        simp [List.length_append, brTag]
        omega
      show (openTag ++ mid ++ brTag) :: tagFindallF openTag s.length rest =
        (openTag ++ mid ++ brTag) :: tagFindall openTag rest
      rw [tagFindallF_invariant openTag s.length (rest.length + 1) rest (by omega) (by omega)]
      rfl

/-- `res_match_re.findall`. -/
def res_match_findall (s : List Char) : List (List Char) := tagFindall resOpenTag s

/-- `bill_match_re.findall`. -/
def bill_match_findall (s : List Char) : List (List Char) := tagFindall "<p>".data s

/-- The resolution path of `scrape`:
`self.get(res_url).text.split("-->")[-2]` then `res_match_re.findall`. -/
def scrapeResolutionFragments (page : List Char) : Except String (List (List Char)) := do
  let doc ← pyIndexNeg (pySplit commentEnd page) 2
  pure (res_match_findall doc)

/-- Modelled from the spec: the synthetic index page of the round-trip
property — known-good fragments joined with a newline and wrapped with the
HTML-comment terminator so that the joined block is the `[-2]` segment. -/
def buildIndexPage (frags : List (List Char)) : List Char :=
  commentEnd ++ (joinWith ['\n'] frags ++ commentEnd)

/-- Stated per the claim's words, for comparison with `cleanSponsorLine`:
strip leading `/` characters and surrounding whitespace. -/
def claimCleanLine (s : List Char) : List Char :=
  pyStrip pySpace (s.dropWhile (fun c => c = '/'))

/-- C1: the claim says `_process_resolution` emits "Presented" dated by the
extracted `PresentationDate` and "Adopted" dated by `AdoptedDate`. In the
source (lines 226–233) both actions instead read `details["ReferredDate"]`,
a key `_get_resolution_details` never produces, so whenever either field is
set the emission raises `KeyError` (after the logically prior failure that
`self._get_details` itself is not defined, see `c2_get_details_undefined`). -/
theorem c1_presented_adopted_keyerror (d : ResolutionDetails)
    (h : d.PresentationDate.isSome ∨ d.AdoptedDate.isSome) :
    resolutionEmitDetailActions (resolutionDetailsDict d) =
      .error "KeyError: ReferredDate" := by
  obtain ⟨dI, dP, dA⟩ := d
  rcases dP with _ | v
  · rcases dA with _ | w
    · simp at h
    · rfl
  · rfl

theorem c1_witness :
    resolutionEmitDetailActions (resolutionDetailsDict
      { IntroducedDate := none,
        PresentationDate := some (TzDateTime.mk "9/10/20 11:12 am".data),
        AdoptedDate := none }) = .error "KeyError: ReferredDate" :=
  c1_presented_adopted_keyerror _ (Or.inl rfl)

/-- C2: the claim says the non-withdrawn bill branch fetches details via the
Detail Extractor. The source (line 161) calls `self._get_details(status)`,
but no `_get_details` is bound anywhere on `GUBillScraper` (the extractor is
`_get_bill_details`), so the branch raises `AttributeError` before emitting
any action or yielding. -/
theorem c2_get_details_undefined :
    "_get_details" ∉ guBillScraperAttrs ∧ "_get_bill_details" ∈ guBillScraperAttrs := by
  constructor
  · decide
  · decide

/-- C3: the claim says detail extraction leaves `IntroducedDate` unset and
raises no exception when fewer than two date-time matches exist. On a
normalized text with exactly one date-time match, both extractors evaluate
`full_dates[1]` under the guard `if full_dates:` and raise `IndexError`. -/
theorem c3_single_datetime_indexerror :
    (reFindall date_time_re "1/2/20 3:04 pm".data).length = 1 ∧
    get_bill_details "1/2/20 3:04 pm".data =
      .error "IndexError: list index out of range" ∧
    get_resolution_details "1/2/20 3:04 pm".data =
      .error "IndexError: list index out of range" :=
  ⟨rfl, rfl, rfl⟩

/-- C4: the claim says `PresentationDate` is set only when at least three
date-time matches exist and short documents cause no fatal error. The source
guards `full_dates[2]` with `len(full_dates) > 1` (and `full_dates[3]` with
`> 2`), so a text with exactly two date-time matches raises `IndexError`. -/
theorem c4_two_datetimes_indexerror :
    (reFindall date_time_re "1/2/20 3:04 pm 5/6/20 7:08 pm".data).length = 2 ∧
    get_resolution_details "1/2/20 3:04 pm 5/6/20 7:08 pm".data =
      .error "IndexError: list index out of range" :=
  ⟨rfl, rfl⟩

/-- C5 counterexample: for a sponsor block ending in
`"J. Doe - ADOPTED 01/02/20"`, the recorded last sponsor name is
`"J. Doe "` — with a trailing space, because `split("-")` keeps the text
before the dash unstripped — not exactly `"J. Doe"` as the claim states.
The action does carry the literal label and date text. -/
theorem c5_counterexample :
    resolutionSponsorships "/S. Smith\nJ. Doe - ADOPTED 01/02/20".data =
      .ok ([{ name := "S. Smith".data, entity_type := "person".data,
              classification := "primary".data, primary := true },
            { name := "J. Doe ".data, entity_type := "person".data,
              classification := "cosponsor".data, primary := false }],
           some { label := "ADOPTED".data, date := .literal "01/02/20".data,
                  organization := none }) ∧
    "J. Doe ".data ≠ "J. Doe".data := by
  refine ⟨rfl, by decide⟩

/-- C5 amended: when the cleaned sponsor list ends with the entry
`"J. Doe - ADOPTED 01/02/20"`, the result-tail handling replaces that entry
by `"J. Doe "` (the text before the dash, trailing space preserved) and
produces the literal action pair `("ADOPTED", "01/02/20")`. -/
theorem c5_amended (sponsors : List (List Char))
    (h : sponsors.getLast? = some "J. Doe - ADOPTED 01/02/20".data) :
    resultTail sponsors =
      .ok (sponsors.dropLast ++ ["J. Doe ".data],
           some ("ADOPTED".data, "01/02/20".data)) := by
  unfold resultTail
  rw [h]
  rfl

theorem c5_amended_witness :
    resultTail ["Last, N.".data, "J. Doe - ADOPTED 01/02/20".data] =
      .ok (["Last, N.".data, "J. Doe ".data],
           some ("ADOPTED".data, "01/02/20".data)) :=
  c5_amended ["Last, N.".data, "J. Doe - ADOPTED 01/02/20".data] rfl

/-- C6 counterexample: the source cleans each sponsor line with
`s.strip("/").strip()`, which strips `/` from *both* ends; on the sponsor
block `"J. Doe/"` the produced primary sponsor is `"J. Doe"`, not the
claim's "first line after stripping leading `/` and surrounding
whitespace", which would keep the trailing slash. -/
theorem c6_counterexample :
    billSponsorships "J. Doe/".data =
      .ok [{ name := "J. Doe".data, entity_type := "person".data,
             classification := "primary".data, primary := true }] ∧
    claimCleanLine "J. Doe/".data = "J. Doe/".data ∧
    "J. Doe".data ≠ "J. Doe/".data := by
  refine ⟨rfl, rfl, by decide⟩

theorem except_ok_bind {α β : Type} (x : α) (f : α → Except String β) :
    (Except.ok x >>= f) = f x := rfl

theorem except_error_bind {α β : Type} (e : String) (f : α → Except String β) :
    ((Except.error e : Except String α) >>= f) = Except.error e := rfl

theorem except_pure_eq {α : Type} (x : α) : (pure x : Except String α) = Except.ok x := rfl

theorem addSponsorships_ok {sponsors : List (List Char)} {l : List GuSponsorship}
    (h : addSponsorships sponsors = .ok l) :
    ∃ s0 rest, sponsors = s0 :: rest ∧ l = mkPrimary s0 :: rest.map mkCosponsor := by
  cases sponsors with
  | nil => simp [addSponsorships] at h
  | cons s0 rest =>
    refine ⟨s0, rest, rfl, ?_⟩
    simp [addSponsorships] at h
    exact h.symm

theorem cosponsor_map_facts (rest : List (List Char)) :
    ∀ x ∈ rest.map mkCosponsor,
      x.primary = false ∧ x.classification = "cosponsor".data := by
  intro x hx
  simp only [List.mem_map] at hx
  obtain ⟨s, _, hs⟩ := hx
  rw [← hs]
  exact ⟨rfl, rfl⟩

theorem primary_count_one (s0 : List Char) (rest : List (List Char)) :
    (((mkPrimary s0 :: rest.map mkCosponsor).filter
      (fun sp => sp.primary)).length = 1) := by
  rw [List.filter_cons_of_pos (by rfl)]
  have hnil : (rest.map mkCosponsor).filter (fun sp => sp.primary) = [] := by
    rw [List.filter_eq_nil]
    intro a ha
    simp [(cosponsor_map_facts rest a ha).1]
  rw [hnil]
  rfl

/-- A successful result-tail pass either leaves the sponsor list unchanged
or replaces its last entry (which then contained a dash). -/
theorem resultTail_ok_shape {sps sps' : List (List Char)}
    {res : Option (List Char × List Char)}
    (h : resultTail sps = .ok (sps', res)) :
    sps' = sps ∨
      (∃ nm last, sps.getLast? = some last ∧ last.contains '-' = true ∧
        sps' = sps.dropLast ++ [nm]) := by
  unfold resultTail at h
  split at h
  · exact absurd h (by simp)
  · next last hlast =>
    split at h
    · next hd =>
      split at h
      · next nm result_data hsp =>
        split at h
        · next r dt hws =>
          simp only [Except.ok.injEq, Prod.mk.injEq] at h
          exact Or.inr ⟨nm, last, hlast, hd, h.1.symm⟩
        · exact absurd h (by simp)
      · exact absurd h (by simp)
    · simp only [Except.ok.injEq, Prod.mk.injEq] at h
      exact Or.inl h.1.symm

/-- The head of the sponsor list survives the result-tail pass, except when
the list is a single dash-containing entry. -/
theorem resultTail_head {sps sps' : List (List Char)}
    {res : Option (List Char × List Char)}
    (h : resultTail sps = .ok (sps', res))
    (hc : 2 ≤ sps.length ∨ (∀ f, sps = [f] → f.contains '-' = false)) :
    sps'.head? = sps.head? := by
  rcases resultTail_ok_shape h with heq | ⟨nm, last, hlast, hd, heq⟩
  · rw [heq]
  · subst heq
    rcases sps with _ | ⟨a, _ | ⟨b, rest⟩⟩
    · simp at hlast
    · rcases hc with hc | hc
      · simp at hc
      · simp at hlast
        subst hlast
        rw [hc a rfl] at hd
        cases hd
    · rfl

/-- C6 amended: for both parsers the primary sponsor is the first entry and
is the only one with `primary = true` (all later entries are cosponsors with
`primary = false`), and its name is the first non-blank line of the sponsor
block stripped of `/` at *both* ends and then of surrounding whitespace —
except in the resolution parser when the cleaned sponsor list is a single
entry containing `-`, whose result-tail rewrite replaces that entry. -/
theorem c6_amended_primary_sponsor (block : List Char) :
    (∀ l, billSponsorships block = .ok l →
      ∃ f rest, nonBlankLines block = f :: rest ∧
        ∃ s t, l = s :: t ∧ s.name = cleanSponsorLine f ∧
          s.primary = true ∧ s.classification = "primary".data ∧
          (∀ x ∈ t, x.primary = false ∧ x.classification = "cosponsor".data) ∧
          (l.filter (fun sp => sp.primary)).length = 1) ∧
    (∀ l act, resolutionSponsorships block = .ok (l, act) →
      ∃ s t, l = s :: t ∧ s.primary = true ∧ s.classification = "primary".data ∧
        (∀ x ∈ t, x.primary = false ∧ x.classification = "cosponsor".data) ∧
        (l.filter (fun sp => sp.primary)).length = 1 ∧
        ((2 ≤ (sponsorLines block).length ∨
            (∀ f, sponsorLines block = [f] → f.contains '-' = false)) →
          ∃ f rest, nonBlankLines block = f :: rest ∧ s.name = cleanSponsorLine f)) := by
  constructor
  · intro l h
    unfold billSponsorships at h
    obtain ⟨s0, rest, hsp, hl⟩ := addSponsorships_ok h
    have hmap : (nonBlankLines block).map cleanSponsorLine = s0 :: rest := hsp
    cases hnb : nonBlankLines block with
    | nil => rw [hnb] at hmap; simp at hmap
    | cons f rest0 =>
      rw [hnb] at hmap
      simp only [List.map_cons, List.cons.injEq] at hmap
      refine ⟨f, rest0, rfl, _, _, hl, ?_, rfl, rfl, ?_, ?_⟩
      · exact hmap.1.symm
      · intro x hx
        exact cosponsor_map_facts rest x hx
      · rw [hl]
        exact primary_count_one s0 rest
  · intro l act h
    unfold resolutionSponsorships at h
    cases hrt : resultTail (sponsorLines block) with
    | error e =>
      rw [hrt, except_error_bind] at h
      exact absurd h (by simp)
    | ok pair =>
      obtain ⟨sps', res⟩ := pair
      rw [hrt, except_ok_bind] at h
      cases has : addSponsorships sps' with
      | error e =>
        rw [show addSponsorships (sps', res).1 = addSponsorships sps' from rfl,
          has, except_error_bind] at h
        exact absurd h (by simp)
      | ok sl =>
        rw [show addSponsorships (sps', res).1 = addSponsorships sps' from rfl,
          has, except_ok_bind, except_pure_eq] at h
        simp only [Except.ok.injEq, Prod.mk.injEq] at h
        obtain ⟨hsl, _⟩ := h
        obtain ⟨s0, rest, hshape, hl⟩ := addSponsorships_ok has
        refine ⟨_, _, hsl.symm.trans hl, rfl, rfl, ?_, ?_, ?_⟩
        · intro x hx
          exact cosponsor_map_facts rest x (by simpa using hx)
        · rw [← hsl, hl]
          exact primary_count_one s0 rest
        · intro hc
          have hhead : sps'.head? = (sponsorLines block).head? := resultTail_head hrt hc
          rw [hshape] at hhead
          cases hnb : nonBlankLines block with
          | nil =>
            have : sponsorLines block = [] := by
              unfold sponsorLines
              rw [hnb]
              rfl
            rw [this] at hhead
            simp at hhead
          | cons f rest0 =>
            have hsl2 : sponsorLines block = cleanSponsorLine f :: rest0.map cleanSponsorLine := by
              unfold sponsorLines
              rw [hnb]
              rfl
            rw [hsl2] at hhead
            simp only [List.head?_cons, Option.some.injEq] at hhead
            exact ⟨f, rest0, rfl, hhead⟩

theorem c6_amended_witness :
    ∃ f rest, nonBlankLines "/J. Doe\nS. Smith".data = f :: rest ∧
      ∃ s t,
        [mkPrimary "J. Doe".data, mkCosponsor "S. Smith".data] = s :: t ∧
        s.name = cleanSponsorLine f ∧ s.primary = true ∧
        s.classification = "primary".data ∧
        (∀ x ∈ t, x.primary = false ∧ x.classification = "cosponsor".data) ∧
        (([mkPrimary "J. Doe".data, mkCosponsor "S. Smith".data].filter
          (fun sp => sp.primary)).length = 1) :=
  (c6_amended_primary_sponsor "/J. Doe\nS. Smith".data).1 _ rfl

/-- C7: the claim's withdrawn-bill scenario. Identifier parsing does produce
`"160-37"` and the withdrawal marker is detected (so the withdrawal branch,
which performs no sponsorship or document-link calls, is taken), but the
branch then calls the undefined `self._get_details(bill_link)` and raises
`AttributeError` before adding any action or yielding the record. -/
theorem c7_withdrawn_bill :
    billName "Bill No. 160-37 (LS) - WITHDRAWN".data = .ok "160-37".data ∧
    billIsWithdrawn "Bill No. 160-37 (LS) - WITHDRAWN".data = true ∧
    "_get_details" ∉ guBillScraperAttrs := by
  refine ⟨rfl, rfl, by decide⟩

/-- C8 counterexample: a page with exactly one `-->` marker (fewer than two)
does not make segmentation fail as the claim states: `split("-->")[-2]` is
then the content *before* the marker, which is segmented and yielded. -/
theorem c8_counterexample :
    (pySplit commentEnd "<p align=\"left\">A<br>-->tail".data).length = 2 ∧
    scrapeResolutionFragments "<p align=\"left\">A<br>-->tail".data =
      .ok ["<p align=\"left\">A<br>".data] :=
  ⟨rfl, rfl⟩

/-- C10: when the last sponsor entry contains a dash, the result-tail
handling succeeds exactly when `split("-")` yields exactly two pieces
(exactly one dash in the entry) and the second piece's whitespace `split()`
yields exactly two tokens; any other shape raises a `ValueError` unpacking
error, so the resolution parser yields no record. -/
theorem c10_result_tail_unpack (sponsors : List (List Char)) (last : List Char)
    (hlast : sponsors.getLast? = some last) (hdash : last.contains '-' = true) :
    ((∃ out, resultTail sponsors = .ok out) ↔
      (∃ nm rd, pySplit ['-'] last = [nm, rd] ∧ ∃ r dt, pySplitWs rd = [r, dt])) ∧
    ((¬ ∃ nm rd, pySplit ['-'] last = [nm, rd] ∧ ∃ r dt, pySplitWs rd = [r, dt]) →
      resultTail sponsors = .error "ValueError: unpack") := by
  have hred : resultTail sponsors =
      (match pySplit ['-'] last with
       | [nm, result_data] =>
         match pySplitWs result_data with
         | [result, result_date] =>
           Except.ok (sponsors.dropLast ++ [nm], some (result, result_date))
         | _ => Except.error "ValueError: unpack"
       | _ => Except.error "ValueError: unpack") := by
    unfold resultTail
    rw [hlast]
    change (if last.contains '-' = true then
        match pySplit ['-'] last with
        | [nm, result_data] =>
          match pySplitWs result_data with
          | [result, result_date] =>
            Except.ok (sponsors.dropLast ++ [nm], some (result, result_date))
          | _ => Except.error "ValueError: unpack"
        | _ => Except.error "ValueError: unpack"
      else Except.ok (sponsors, none)) = _
    rw [if_pos hdash]
  rw [hred]
  rcases hsp : pySplit ['-'] last with _ | ⟨nm, _ | ⟨rd, _ | ⟨x3, tl⟩⟩⟩
  · simp
  · simp
  · rcases hws : pySplitWs rd with _ | ⟨r, _ | ⟨dt, _ | ⟨y3, tl2⟩⟩⟩
    · simp [hws]
    · simp [hws]
    · simp [hws]
      exact ⟨nm, rd, ⟨rfl, rfl⟩, r, dt, hws⟩
    · simp [hws]
  · simp

theorem c10_witness :
    ((∃ out, resultTail ["J. Doe - ADOPTED 01/02/20".data] = .ok out) ↔
      (∃ nm rd, pySplit ['-'] "J. Doe - ADOPTED 01/02/20".data = [nm, rd] ∧
        ∃ r dt, pySplitWs rd = [r, dt])) ∧
    ((¬ ∃ nm rd, pySplit ['-'] "J. Doe - ADOPTED 01/02/20".data = [nm, rd] ∧
        ∃ r dt, pySplitWs rd = [r, dt]) →
      resultTail ["J. Doe - ADOPTED 01/02/20".data] = .error "ValueError: unpack") :=
  c10_result_tail_unpack ["J. Doe - ADOPTED 01/02/20".data]
    "J. Doe - ADOPTED 01/02/20".data rfl (by decide)

/-- Splitting on `-->` inverts joining `-->`-free pieces with `-->`. -/
theorem pySplit_commentEnd_joinWith : ∀ (parts : List (List Char)), parts ≠ [] →
    (∀ p ∈ parts, splitFirst commentEnd p = none) →
    pySplit commentEnd (joinWith commentEnd parts) = parts := by
  intro parts
  induction parts with
  | nil => intro h _; exact absurd rfl h
  | cons p ps ih =>
    intro _ hfree
    cases ps with
    | nil =>
      show pySplit commentEnd p = [p]
      rw [pySplit_eq, if_neg (by decide), hfree p (by simp)]
    | cons q ps' =>
      show pySplit commentEnd (p ++ commentEnd ++ joinWith commentEnd (q :: ps')) =
        p :: q :: ps'
      rw [pySplit_eq, if_neg (by decide), List.append_assoc,
        splitFirst_commentEnd_append (hfree p (by simp))]
      show p :: pySplit commentEnd (joinWith commentEnd (q :: ps')) = p :: q :: ps'
      rw [ih (by simp) (fun x hx => hfree x (by simp [hx]))]

/-- C8 amended: `scrape` splits the page on `-->` and segments part `[-2]`
of the split. A page with no marker (a single part) fails with `IndexError`;
any page with at least one marker succeeds: the segmented block is the one
between the second-to-last and the last marker when two or more markers are
present, and the content *before* the marker when exactly one is. Fragments
are produced in document order by the boundary-pattern scan. (Every page
decomposes as `-->`-free parts joined with `-->`, so the second conjunct
covers all pages with at least one marker.) -/
theorem c8_amended_segmentation :
    (∀ page : List Char, splitFirst commentEnd page = none →
      scrapeResolutionFragments page = .error "IndexError: list index out of range") ∧
    (∀ (ps : List (List Char)) (a b : List Char),
      (∀ p ∈ ps ++ [a, b], splitFirst commentEnd p = none) →
      scrapeResolutionFragments (joinWith commentEnd (ps ++ [a, b])) =
        .ok (res_match_findall a)) := by
  constructor
  · intro page hnone
    show (pyIndexNeg (pySplit commentEnd page) 2).bind _ = _
    rw [pySplit_eq, if_neg (by decide), hnone]
    rfl
  · intro ps a b hfree
    show (pyIndexNeg (pySplit commentEnd (joinWith commentEnd (ps ++ [a, b]))) 2).bind _ = _
    rw [pySplit_commentEnd_joinWith (ps ++ [a, b]) (by simp) hfree]
    have hlen : (ps ++ [a, b]).length = ps.length + 2 := by simp
    have hidx : pyIndexNeg (ps ++ [a, b]) 2 = .ok a := by
      unfold pyIndexNeg
      rw [dif_pos (by omega)]
      congr 1
      have h1 : (ps ++ [a, b]).length - 2 = ps.length := by omega
      rw [List.get_eq_getElem]
      simp only [h1]
      rw [List.getElem_append_right (Nat.le_refl _)]
      simp
    rw [hidx]
    rfl

theorem c8_amended_witness :
    scrapeResolutionFragments "no marker here".data =
      .error "IndexError: list index out of range" ∧
    scrapeResolutionFragments
        (joinWith commentEnd ["head".data, "<p align=\"left\">A<br>".data, "tail".data]) =
      .ok (res_match_findall "<p align=\"left\">A<br>".data) :=
  ⟨c8_amended_segmentation.1 "no marker here".data rfl,
   c8_amended_segmentation.2 ["head".data] "<p align=\"left\">A<br>".data "tail".data
     (by decide)⟩

/-- A fragment on which `findall` returns exactly the fragment itself starts
with the opening tag, ends with `<br>`, and contains no interior `<br>`
after the opening tag. -/
theorem tagFindall_singleton {openTag f : List Char}
    (h : tagFindall openTag f = [f]) :
    ∃ ao mid, splitFirst openTag f = some ([], ao) ∧
      splitFirst brTag ao = some (mid, []) ∧ f = openTag ++ mid ++ brTag := by
  rw [tagFindall_eq] at h
  rcases h1 : splitFirst openTag f with _ | ⟨pre1, ao⟩ <;> rw [h1] at h
  · simp at h
  · change (match splitFirst brTag ao with
            | none => []
            | some (mid, rest) =>
              (openTag ++ mid ++ brTag) :: tagFindall openTag rest) = [f] at h
    rcases h2 : splitFirst brTag ao with _ | ⟨mid, rest⟩ <;> rw [h2] at h
    · simp at h
    · change (openTag ++ mid ++ brTag) :: tagFindall openTag rest = [f] at h
      simp only [List.cons.injEq] at h
      obtain ⟨hf, _⟩ := h
      have e1 := splitFirst_structure h1
      have e2 := splitFirst_structure h2
      have hlen : pre1.length = 0 ∧ rest.length = 0 := by
        have lf : f.length = pre1.length + openTag.length + (mid.length + brTag.length + rest.length) := by
          rw [e1, e2]
          simp [List.length_append]
          omega
        have lf2 : f.length = openTag.length + mid.length + brTag.length := by
          rw [← hf]
          simp [List.length_append]
          omega
        omega
      have hpre1 : pre1 = [] := List.eq_nil_of_length_eq_zero hlen.1
      have hrest : rest = [] := List.eq_nil_of_length_eq_zero hlen.2
      subst hpre1
      subst hrest
      exact ⟨ao, mid, rfl, h2, hf.symm⟩

/-- Scanning a good fragment followed by anything finds the fragment first
and resumes after it. -/
theorem tagFindall_append_good {openTag f : List Char} (X : List Char)
    (h : tagFindall openTag f = [f]) :
    tagFindall openTag (f ++ X) = f :: tagFindall openTag X := by
  obtain ⟨ao, mid, h1, h2, hf⟩ := tagFindall_singleton h
  rw [tagFindall_eq, splitFirst_append h1]
  change (match splitFirst brTag (ao ++ X) with
          | none => []
          | some (mid, rest) =>
            (openTag ++ mid ++ brTag) :: tagFindall openTag rest) = _
  rw [splitFirst_append h2]
  change (openTag ++ mid ++ brTag) :: tagFindall openTag ([] ++ X) = _
  rw [List.nil_append, ← hf]

/-- A leading newline is skipped by the scan when the opening tag starts
with `<`. -/
theorem tagFindall_cons_skip (otl : List Char) (X : List Char) :
    tagFindall ('<' :: otl) ('\n' :: X) = tagFindall ('<' :: otl) X := by
  have hnp : ¬ ('<' :: otl).isPrefixOf ('\n' :: X) = true := by
    simp [List.isPrefixOf]
  have e : splitFirst ('<' :: otl) ('\n' :: X) =
      match splitFirst ('<' :: otl) X with
      | none => none
      | some (a, b) => some ('\n' :: a, b) := by
    simp only [splitFirst, if_neg hnp]
  rw [tagFindall_eq, e]
  conv_rhs => rw [tagFindall_eq]
  cases hx : splitFirst ('<' :: otl) X with
  | none => rfl
  | some ab => obtain ⟨a, b⟩ := ab; rfl

/-- Newline-joined `-->`-free pieces stay `-->`-free. -/
theorem joinWith_newline_nofree : ∀ {frags : List (List Char)},
    (∀ f ∈ frags, splitFirst commentEnd f = none) →
    splitFirst commentEnd (joinWith ['\n'] frags) = none := by
  intro frags
  induction frags with
  | nil => intro _; rfl
  | cons f fs ih =>
    intro h
    cases fs with
    | nil => exact h f (by simp)
    | cons g fs' =>
      show splitFirst commentEnd (f ++ ['\n'] ++ joinWith ['\n'] (g :: fs')) = none
      rw [List.append_assoc]
      exact splitFirst_none_append (by decide) (h f (by simp))
        (ih (fun x hx => h x (by simp [hx])))

/-- `findall` inverts newline-joining of good fragments. -/
theorem tagFindall_joinWith (otl : List Char) : ∀ (frags : List (List Char)),
    (∀ f ∈ frags, tagFindall ('<' :: otl) f = [f]) →
    tagFindall ('<' :: otl) (joinWith ['\n'] frags) = frags := by
  intro frags
  induction frags with
  | nil =>
    intro _
    rw [tagFindall_eq]
    rfl
  | cons f fs ih =>
    intro hall
    cases fs with
    | nil => exact hall f (by simp)
    | cons g fs' =>
      show tagFindall ('<' :: otl) (f ++ ['\n'] ++ joinWith ['\n'] (g :: fs')) = f :: g :: fs'
      rw [List.append_assoc]
      rw [tagFindall_append_good _ (hall f (by simp))]
      show f :: tagFindall ('<' :: otl) ('\n' :: joinWith ['\n'] (g :: fs')) = _
      rw [tagFindall_cons_skip]
      rw [ih (fun x hx => hall x (by simp [hx]))]

/-- C9 amended: the round trip holds once the known-good fragments are also
free of the comment terminator `-->`: then segmenting the synthetic page
built by `buildIndexPage` returns exactly the original fragments in order.
(The counterexample shows a fragment containing `-->`, although matched in
full by the boundary pattern, breaks the page-level split, so the extra
hypothesis is necessary.) -/
theorem c9_amended_roundtrip (frags : List (List Char))
    (hgood : ∀ f ∈ frags, res_match_findall f = [f])
    (hfree : ∀ f ∈ frags, splitFirst commentEnd f = none) :
    scrapeResolutionFragments (buildIndexPage frags) = .ok frags := by
  have hJ : splitFirst commentEnd (joinWith ['\n'] frags) = none :=
    joinWith_newline_nofree hfree
  have hsplit : pySplit commentEnd (buildIndexPage frags) =
      [[], joinWith ['\n'] frags, []] := by
    show pySplit commentEnd
      (commentEnd ++ (joinWith ['\n'] frags ++ commentEnd)) = _
    rw [pySplit_eq, if_neg (by decide)]
    have h0 : splitFirst commentEnd ([] ++ (commentEnd ++ (joinWith ['\n'] frags ++ commentEnd))) =
        some ([], joinWith ['\n'] frags ++ commentEnd) :=
      splitFirst_commentEnd_append rfl
    rw [List.nil_append] at h0
    rw [h0]
    show [] :: pySplit commentEnd (joinWith ['\n'] frags ++ commentEnd) = _
    rw [pySplit_eq, if_neg (by decide)]
    have h1 : splitFirst commentEnd (joinWith ['\n'] frags ++ (commentEnd ++ [])) =
        some (joinWith ['\n'] frags, []) := splitFirst_commentEnd_append hJ
    rw [List.append_nil] at h1
    rw [h1]
    rfl
  show (pyIndexNeg (pySplit commentEnd (buildIndexPage frags)) 2).bind _ = _
  rw [hsplit]
  show Except.ok (res_match_findall (joinWith ['\n'] frags)) = _
  have : res_match_findall (joinWith ['\n'] frags) = frags := by
    show tagFindall resOpenTag (joinWith ['\n'] frags) = frags
    have hre : resOpenTag = '<' :: "p align=\"left\">".data := rfl
    rw [hre]
    exact tagFindall_joinWith _ frags (fun f hf => hgood f hf)
  rw [this]

theorem c9_amended_witness :
    scrapeResolutionFragments
        (buildIndexPage ["<p align=\"left\">A<br>".data, "<p align=\"left\">B. 2<br>".data]) =
      .ok ["<p align=\"left\">A<br>".data, "<p align=\"left\">B. 2<br>".data] :=
  c9_amended_roundtrip
    ["<p align=\"left\">A<br>".data, "<p align=\"left\">B. 2<br>".data]
    (by intro f hf; fin_cases hf <;> rfl)
    (by intro f hf; fin_cases hf <;> rfl)

/-- C9 counterexample: the fragment `<p align="left">x--><br>` is matched in
full by the resolution boundary pattern, yet the synthetic index page built
from it alone segments to *no* fragments: the `-->` inside the fragment
shifts the `split("-->")[-2]` block. -/
theorem c9_counterexample :
    res_match_findall "<p align=\"left\">x--><br>".data =
      ["<p align=\"left\">x--><br>".data] ∧
    scrapeResolutionFragments (buildIndexPage ["<p align=\"left\">x--><br>".data]) =
      .ok [] ∧
    (Except.ok ([] : List (List Char)) : Except String (List (List Char))) ≠
      .ok ["<p align=\"left\">x--><br>".data] := by
  refine ⟨rfl, rfl, by simp⟩

end GuBills
